import Mathlib

/-!
Verification of the data-quality profiling engine in `src/backend/app.py`
(the body of the `upload` handler, lines 143-321).

The engine is embedded shallowly:

* a pandas cell is a `Val` (missing `NaN`, a numeric value, or a string);
* a DataFrame is a `Table`: an ordered association list from column name to
  the column values (read_csv produces unique column names, aligned rows);
* `pd.to_numeric(errors="coerce")` becomes `toNum` (numbers survive, missing
  cells and non-numeric strings coerce to `none`);
* Python `round(x, n)` (ties to even) becomes `roundTo n`;
* the engine body becomes `buildReport : Table → String → Except EngErr Report`
  where the `String` argument is the captured UTC evaluation instant
  `datetime.now(timezone.utc).isoformat()` and `EngErr` records the Python
  exceptions that the body can raise (caught only by the top-level
  `except Exception` which aborts the run without producing a report).
-/

/-- A single cell of the loaded DataFrame: missing (`NaN`), a numeric value,
or a string. -/
inductive Val where
  | missing : Val
  | num : ℚ → Val
  | str : String → Val
deriving DecidableEq

/-- Models `pd.isna` on a cell. -/
def isMissing : Val → Bool
  | Val.missing => true
  | _ => false

/-- Models `pd.to_numeric(errors="coerce")` applied to one cell: numeric cells
keep their value, missing cells and non-numeric strings become `NaN` (`none`). -/
def toNum : Val → Option ℚ
  | Val.num q => some q
  | _ => none

/-- A loaded DataFrame: ordered columns, each column name paired with its
values.  `read_csv` yields unique column names and rectangular data. -/
abbrev Table := List (String × List Val)

/-- The `df.columns` list. -/
def columns (df : Table) : List String := df.map Prod.fst

/-- Column access `df[c]`; `none` when the column is absent. -/
def getCol : Table → String → Option (List Val)
  | [], _ => none
  | (n, vs) :: rest, c => if n = c then some vs else getCol rest c

/-- The row count from `df.shape` (all columns are aligned, so the first
column length is the row count). -/
def nRows (df : Table) : ℕ :=
  match df with
  | [] => 0
  | (_, vs) :: _ => vs.length

/-- Python `round` to an integer: nearest integer, ties to the even one. -/
def rteInt (q : ℚ) : ℤ :=
  let f := ⌊q⌋
  let d := q - (f : ℚ)
  if d < 1/2 then f else if 1/2 < d then f + 1 else if f % 2 = 0 then f else f + 1

/-- Python `round(x, n)`: round to `n` decimal places, ties to even. -/
def roundTo (n : ℕ) (q : ℚ) : ℚ := ((rteInt (q * 10 ^ n) : ℤ) : ℚ) / 10 ^ n

/-- The guarded percentage pattern of the engine:
`round((count / rows) * 100 if rows else 0.0, 3)`. -/
def pct3 (count rows : ℕ) : ℚ :=
  roundTo 3 (if rows ≠ 0 then (count : ℚ) / (rows : ℚ) * 100 else 0)

/-- Boolean prefix test on character lists. -/
def listPrefixOf : List Char → List Char → Bool
  | [], _ => true
  | _ :: _, [] => false
  | a :: as, b :: bs => a == b && listPrefixOf as bs

/-- Boolean infix (substring) test on character lists. -/
def hasSub (needle : List Char) : List Char → Bool
  | [] => listPrefixOf needle []
  | c :: cs => listPrefixOf needle (c :: cs) || hasSub needle cs

/-- Python `"date" in c.lower()`: the lowercased column name contains the
substring `date`. -/
def containsDate (s : String) : Bool :=
  hasSub ['d', 'a', 't', 'e'] (s.data.map Char.toLower)

/-- Lexicographic (code-point) strict comparison of character lists, as Python
compares `str` values. -/
def charListLt : List Char → List Char → Bool
  | [], [] => false
  | [], _ :: _ => true
  | _ :: _, [] => false
  | a :: as, b :: bs =>
      if a.toNat < b.toNat then true
      else if b.toNat < a.toNat then false
      else charListLt as bs

/-- Python string `<`. -/
def strLt (a b : String) : Bool := charListLt a.data b.data

/-- Python string `<=`. -/
def strLe (a b : String) : Bool := a == b || strLt a b

example : strLt "2020-01-01T00:00:00" "2026-10-12T00:00:00+00:00" = true := by decide
example : containsDate "Order_Date" = true := by decide
example : containsDate "email" = false := by decide

/-! ## Null profiler (app.py lines 149-159) -/

/-- Count of missing cells in one column (`df.isna().sum()` per column). -/
def missingCount (vs : List Val) : ℕ := vs.countP isMissing

/-- One record of the nulls table. -/
structure NullEntry where
  column : String
  missing : ℕ
  missing_pct : ℚ
deriving DecidableEq

/-- The unsorted nulls records, one per column in column order:
`missing` is the isna count, `missing_pct` is `(isna mean * 100).round(2)`.
A zero-row table never surfaces this value: the run aborts later at the
unguarded email percentage division. -/
def nullEntries (df : Table) : List NullEntry :=
  df.map (fun c =>
    { column := c.1
      missing := missingCount c.2
      missing_pct :=
        if nRows df = 0 then 0
        else roundTo 2 ((missingCount c.2 : ℚ) / (nRows df : ℚ) * 100) })

/-- The sort key of `sort_values(["missing", "column"], ascending=[False, True])`:
larger missing count first, ties by ascending column name.  Column names are
unique, so the key is total and any correct sort produces the same list. -/
def nullOrder (a b : NullEntry) : Prop :=
  b.missing < a.missing ∨ (a.missing = b.missing ∧ strLe a.column b.column = true)

instance : DecidableRel nullOrder := fun a b => by
  unfold nullOrder; infer_instance

/-- The sorted nulls table of the report. -/
def nullsSorted (df : Table) : List NullEntry :=
  List.insertionSort nullOrder (nullEntries df)

/-! ## Format validator (app.py lines 161-203) -/

/-- Character class `[a-z0-9!#$%&'*+/=?^_`{|}~-]` of the email local part. -/
def isLocalChar (c : Char) : Bool :=
  c.isLower || c.isDigit ||
    ['!', '#', '$', '%', '&', Char.ofNat 39, '*', '+', '/', '=', '?', '^', '_',
     Char.ofNat 96, Char.ofNat 123, '|', Char.ofNat 125, '~', '-'].contains c

/-- Lowercase alphanumeric characters allowed in a domain label. -/
def isDomAlnum (c : Char) : Bool := c.isLower || c.isDigit

/-- Split a character list on a separator character; like `str.split`, an
empty input yields one empty segment. -/
def splitOnChar (sep : Char) : List Char → List (List Char)
  | [] => [[]]
  | c :: cs =>
      match splitOnChar sep cs with
      | [] => if c == sep then [[], []] else [[c]]
      | seg :: rest => if c == sep then [] :: seg :: rest else (c :: seg) :: rest

/-- One domain label `[a-z0-9](?:[a-z0-9-]*[a-z0-9])?`: nonempty, lowercase
alphanumerics and hyphens, first and last character alphanumeric. -/
def emailLabelOk (seg : List Char) : Bool :=
  match seg with
  | [] => false
  | c :: cs =>
      match (c :: cs).getLast? with
      | none => false
      | some lastc =>
          isDomAlnum c && isDomAlnum lastc &&
            (c :: cs).all (fun d => isDomAlnum d || d == '-')

/-- The local part `[local]+(?:\.[local]+)*`: dot-separated nonempty segments
of local-part characters. -/
def emailLocalOk (s : List Char) : Bool :=
  (splitOnChar '.' s).all (fun seg => !seg.isEmpty && seg.all isLocalChar)

/-- The domain `(?:label\.)+label`: at least two dot-separated labels. -/
def emailDomainOk (s : List Char) : Bool :=
  let segs := splitOnChar '.' s
  decide (2 ≤ segs.length) && segs.all emailLabelOk

/-- Full-string match of the email regex of app.py line 164.  Neither the
local class nor the domain class contains `@`, so a full match is exactly one
`@` splitting a valid local part from a valid domain. -/
def emailFullmatch (s : String) : Bool :=
  match splitOnChar '@' s.data with
  | [l, d] => emailLocalOk l && emailDomainOk d
  | _ => false

/-- Lines 162-169: drop missing emails and count values that do not fully
match the regex.  A non-missing, non-string cell never matches the
lowercase-only grammar. -/
def invalid_emails (df : Table) : ℕ :=
  match getCol df "email" with
  | some ser =>
      (ser.filter (fun v => !(isMissing v))).countP (fun v =>
        match v with
        | Val.str s => !(emailFullmatch s)
        | _ => true)
  | none => 0

example : emailFullmatch "a@b.com" = true := by decide
example : emailFullmatch "BAD" = false := by decide
example : emailFullmatch "A@b.com" = false := by decide
example : emailFullmatch "a.b@x-y.co.uk" = true := by decide
example : emailFullmatch "a..b@x.com" = false := by decide
example : emailFullmatch "a@b" = false := by decide

/-- The Python exceptions the engine body can raise; each is caught only by
the top-level handler, which records a degraded entry and returns no report. -/
inductive EngErr where
  | zeroDivisionError : EngErr
  | indexError : EngErr
  | parseError : EngErr
  | typeError : EngErr
deriving DecidableEq

/-- Shape test for the plain ISO date strings used by the embedding,
`YYYY-MM-DD`. -/
def isIsoDateShape (s : String) : Bool :=
  match s.data with
  | [y1, y2, y3, y4, h1, m1, m2, h2, d1, d2] =>
      y1.isDigit && y2.isDigit && y3.isDigit && y4.isDigit &&
        h1 == '-' && m1.isDigit && m2.isDigit && h2 == '-' &&
        d1.isDigit && d2.isDigit
  | _ => false

/-- Models `pd.to_datetime(c, format="mixed").isoformat()` on one cell for the
shapes the embedding uses: a missing cell parses to `NaT` (whose isoformat is
the string `NaT`), a `YYYY-MM-DD` string parses to midnight of that day, and
anything else raises a parse exception (`none`). -/
def parseDateIso : Val → Option String
  | Val.missing => some "NaT"
  | Val.num _ => none
  | Val.str s => if isIsoDateShape s then some (s ++ "T00:00:00") else none

/-- Lines 172-179: take the FIRST column whose lowercased name contains
`date`; when no such column exists the subscript `header[0]` raises
`IndexError`.  Every value is parsed (an unparseable value raises) and a
value is a future date when its isoformat string compares greater than the
captured instant string `today`. -/
def total_future_dates (df : Table) (today : String) : Except EngErr ℕ :=
  match (columns df).filter (fun c => containsDate c) with
  | [] => Except.error EngErr.indexError
  | h :: _ =>
      match ((getCol df h).getD []).mapM parseDateIso with
      | none => Except.error EngErr.parseError
      | some dates => Except.ok (dates.countP (fun d => strLt today d))

/-- Lines 181-185: compare every raw `age` cell with the bounds 18 and 100.
A missing cell (`NaN`) compares false on both sides and is not counted; a
string cell makes the Python comparison raise `TypeError`. -/
def total_unrealistic_ages (df : Table) : Except EngErr ℕ :=
  match getCol df "age" with
  | none => Except.ok 0
  | some col =>
      if col.any (fun v => match v with | Val.str _ => true | _ => false)
      then Except.error EngErr.typeError
      else Except.ok (col.countP (fun v =>
        match v with
        | Val.num q => decide (q < 18) || decide (100 < q)
        | _ => false))

/-- Lines 188-191: drop missing statuses and count cells whose string form is
exactly `UNKNOWN`.  `astype(str)` of a number is never `UNKNOWN`. -/
def total_invalid_statuses (df : Table) : ℕ :=
  match getCol df "status" with
  | some col =>
      (col.filter (fun v => !(isMissing v))).countP (fun v =>
        match v with
        | Val.str s => s == "UNKNOWN"
        | _ => false)
  | none => 0

/-! ## Logical consistency checker (app.py lines 205-238) -/

/-- Pandas `<` on two coerced cells: `NaN` on either side compares false. -/
def optLt (x y : Option ℚ) : Bool :=
  match x, y with
  | some a, some b => decide (a < b)
  | _, _ => false

/-- The mask pipeline of lines 208-217: coerce both columns, build the
validity mask `cost.notna() & sell.notna()`, conjoin it with the comparison
mask `(sell < cost)` and sum the result. -/
def sell_less_cost (df : Table) : ℕ :=
  match getCol df "cost_price", getCol df "selling_price" with
  | some cost, some sell =>
      let c := cost.map toNum
      let s := sell.map toNum
      let valid := List.zipWith (fun x y => x.isSome && y.isSome) c s
      let violate := List.zipWith (fun l v => l && v) (List.zipWith optLt s c) valid
      violate.count true
  | _, _ => 0

/-- Line 218: the percentage uses the total row count, and stays the
initialization `0` when either column is absent. -/
def sell_less_cost_pct (df : Table) : ℚ :=
  match getCol df "cost_price", getCol df "selling_price" with
  | some _, some _ => pct3 (sell_less_cost df) (nRows df)
  | _, _ => 0

/-- Lines 220-231: the same mask pipeline for `current_stock < reorder_level`. -/
def stock_less_reorder (df : Table) : ℕ :=
  match getCol df "current_stock", getCol df "reorder_level" with
  | some stock, some reorder =>
      let c := stock.map toNum
      let r := reorder.map toNum
      let valid := List.zipWith (fun x y => x.isSome && y.isSome) c r
      let violate := List.zipWith (fun l v => l && v) (List.zipWith optLt c r) valid
      violate.count true
  | _, _ => 0

/-- Percentage for the stock rule, with the same absent-column default. -/
def stock_less_reorder_pct (df : Table) : ℚ :=
  match getCol df "current_stock", getCol df "reorder_level" with
  | some _, some _ => pct3 (stock_less_reorder df) (nRows df)
  | _, _ => 0

/-- Lines 233-238: the logical_inconsistencies dict in insertion order. -/
def logicalDict (df : Table) : List (String × ℚ) :=
  [("sell_less_cost", (sell_less_cost df : ℚ)),
   ("sell_less_cost_pct", sell_less_cost_pct df),
   ("stock_less_reorder", (stock_less_reorder df : ℚ)),
   ("stock_less_reorder_pct", stock_less_reorder_pct df)]

/-! ## Duplicate detector (app.py lines 240-252) -/

/-- Pandas `Series.duplicated().sum()`: the number of entries equal to some
earlier entry, accumulated over a seen list. -/
def dupMarks (seen : List Val) : List Val → ℕ
  | [] => 0
  | v :: rest => (if v ∈ seen then 1 else 0) + dupMarks (v :: seen) rest

/-- Lines 243-245: `df["email"].dropna().duplicated().sum()`; zero when the
email column is absent. -/
def total_duplicates_records (df : Table) : ℕ :=
  match getCol df "email" with
  | some col => dupMarks [] (col.filter (fun v => !(isMissing v)))
  | none => 0

/-- Line 246: the duplicate percentage, accumulated only when the email
column exists. -/
def total_duplicates_records_pct (df : Table) : ℚ :=
  match getCol df "email" with
  | some _ => pct3 (total_duplicates_records df) (nRows df)
  | none => 0

/-- Lines 249-252: the duplicate_records dict in insertion order. -/
def duplicatesDict (df : Table) : List (String × ℚ) :=
  [("total_duplicates_records", (total_duplicates_records df : ℚ)),
   ("total_duplicates_records_pct", total_duplicates_records_pct df)]

/-! ## Outliers section (app.py lines 254-310) -/

/-- Lines 257-259: drop missing payment methods and count cells whose string
form is exactly `INVALID_METHOD`. -/
def total_invalid_methods (df : Table) : ℕ :=
  match getCol df "payment_method" with
  | some col =>
      (col.filter (fun v => !(isMissing v))).countP (fun v =>
        match v with
        | Val.str s => s == "INVALID_METHOD"
        | _ => false)
  | none => 0

/-- Percentage of invalid methods, accumulated only when the column exists. -/
def total_invalid_methods_pct (df : Table) : ℚ :=
  match getCol df "payment_method" with
  | some _ => pct3 (total_invalid_methods df) (nRows df)
  | none => 0

/-- Lines 267-272: `dropna` first, then `to_numeric(errors="coerce")`;
`(tm < 0).sum()` counts coerced values strictly below zero and
`tm.isna().sum()` counts the coercion failures among the non-missing cells. -/
def total_amount_series (col : List Val) : List (Option ℚ) :=
  (col.filter (fun v => !(isMissing v))).map toNum

/-- The `negative_total_amount` count of lines 263-271. -/
def negative_total_amount (df : Table) : ℕ :=
  match getCol df "total_amount" with
  | some col =>
      (total_amount_series col).countP (fun x =>
        match x with
        | some q => decide (q < 0)
        | none => false)
  | none => 0

/-- The `error_total_amount` count of lines 265-272. -/
def error_total_amount (df : Table) : ℕ :=
  match getCol df "total_amount" with
  | some col => (total_amount_series col).countP Option.isNone
  | none => 0

/-- Percentage of negative total amounts. -/
def negative_total_amount_pct (df : Table) : ℚ :=
  match getCol df "total_amount" with
  | some _ => pct3 (negative_total_amount df) (nRows df)
  | none => 0

/-- Percentage of erroneous total amounts. -/
def error_total_amount_pct (df : Table) : ℚ :=
  match getCol df "total_amount" with
  | some _ => pct3 (error_total_amount df) (nRows df)
  | none => 0

/-! ## Price canonicalizer (app.py lines 277-299) -/

/-- First element of a rational list under repeated `min`
(`np.nanmin` over a list without NaN). -/
def listMin : List ℚ → Option ℚ
  | [] => none
  | x :: xs => some (xs.foldl min x)

/-- Lines 283-290, `canonical_price`: drop missing rounded prices; when any
remain, take their `Counter`, keep the values whose multiplicity is the
maximum, and return the smallest of those.  `vals.dedup` plays the role of
the distinct `Counter` keys. -/
def canonical_price (s : List (Option ℚ)) : Option ℚ :=
  let vals := s.filterMap id
  if vals.isEmpty then none
  else
    let maxCount := (vals.dedup.map (fun p => vals.count p)).foldl max 0
    listMin (vals.dedup.filter (fun p => vals.count p == maxCount))

/-- One merged row of lines 292-297: the `(product_id, product_name)` group
key and the 2-decimal rounded coerced unit price `__price_cents`. -/
abbrev PriceRow := (Val × Val) × Option ℚ

/-- The rounded prices of the rows sharing the key of row `r`
(`groupby(["product_id", "product_name"], dropna=False)` groups equal keys,
missing keys included; the merge matches the same keys back). -/
def groupPrices (rows : List PriceRow) (k : Val × Val) : List (Option ℚ) :=
  (rows.filter (fun r => r.1 == k)).map (fun r => r.2)

/-- The `is_outlier` flag of lines 296-297: both the own rounded price and
the group canonical price exist and differ. -/
def is_price_outlier (rows : List PriceRow) (r : PriceRow) : Bool :=
  match r.2, canonical_price (groupPrices rows r.1) with
  | some p, some c => p != c
  | _, _ => false

/-- Line 298: the number of rows flagged as pricing outliers. -/
def pricing_error_rows (rows : List PriceRow) : ℕ :=
  rows.countP (is_price_outlier rows)

/-- Lines 279-281: the merged rows of a table, present only when all three
pricing columns exist; prices are coerced then rounded to 2 decimals. -/
def pricingRows (df : Table) : List PriceRow :=
  match getCol df "product_id", getCol df "product_name", getCol df "unit_price" with
  | some pid, some pname, some price =>
      (pid.zip pname).zip (price.map (fun v => (toNum v).map (roundTo 2)))
  | _, _, _ => []

/-- Lines 277-298: the `total_pricing_error` count, zero when any of the
three columns is absent. -/
def total_pricing_error (df : Table) : ℕ :=
  match getCol df "product_id", getCol df "product_name", getCol df "unit_price" with
  | some _, some _, some _ => pricing_error_rows (pricingRows df)
  | _, _, _ => 0

/-- Line 299: the pricing error percentage. -/
def total_pricing_error_pct (df : Table) : ℚ :=
  match getCol df "product_id", getCol df "product_name", getCol df "unit_price" with
  | some _, some _, some _ => pct3 (total_pricing_error df) (nRows df)
  | _, _, _ => 0

/-- Lines 301-310: the outliers dict in insertion order. -/
def outliersDict (df : Table) : List (String × ℚ) :=
  [("total_invalid_methods", (total_invalid_methods df : ℚ)),
   ("total_invalid_methods_pct", total_invalid_methods_pct df),
   ("negative_total_amount", (negative_total_amount df : ℚ)),
   ("negative_total_amount_pct", negative_total_amount_pct df),
   ("error_total_amount", (error_total_amount df : ℚ)),
   ("error_total_amount_pct", error_total_amount_pct df),
   ("total_pricing_error", (total_pricing_error df : ℚ)),
   ("total_pricing_error_pct", total_pricing_error_pct df)]

/-! ## Report assembly (app.py lines 312-321 and 360-374) -/

/-- The summary rollup of lines 312-321.  `duplicates` sums the values of the
`dups` dict initialized to `{}` on line 141 and never assigned afterwards
(the computed counts live in `duplicate_records`), so the generator sums
nothing; `rule_violations` likewise sums the empty `rules` dict. -/
structure Summary where
  missing_cols : ℕ
  formats_total : ℕ
  logical_inconsistencies : List (String × ℚ)
  duplicates : ℕ
  outliers : ℚ
  rule_violations : ℕ
deriving DecidableEq

/-- The JSON payload of a successful upload (lines 360-374), restricted to
the engine fields. -/
structure Report where
  row_count : ℕ
  column_count : ℕ
  columns : List String
  nulls : List NullEntry
  formats : List (String × ℚ)
  logical_inconsistencies : List (String × ℚ)
  duplicates : List (String × ℚ)
  outliers : List (String × ℚ)
  summary : Summary
deriving DecidableEq

/-- The whole engine body (lines 143-321) as one function of the table and
the captured evaluation instant `today`.  Failure points, in program order:
the unguarded email percentage `round((invalid_emails / rows) * 100, 3)` of
line 170 divides by zero on an empty table; line 174 subscripts `header[0]`,
raising `IndexError` when no column name contains `date`; date parsing raises
on an unparseable value; and the raw `age` comparison raises `TypeError` on a
string cell. -/
def buildReport (df : Table) (today : String) : Except EngErr Report := do
  let rows := nRows df
  let inv_emails := invalid_emails df
  if rows = 0 then throw EngErr.zeroDivisionError
  let email_pct := roundTo 3 ((inv_emails : ℚ) / (rows : ℚ) * 100)
  let fd ← total_future_dates df today
  let fd_pct := pct3 fd rows
  let ua ← total_unrealistic_ages df
  let ua_pct := pct3 ua rows
  let st := total_invalid_statuses df
  let st_pct := pct3 st rows
  let formats : List (String × ℚ) :=
    [("email_invalid", (inv_emails : ℚ)),
     ("email_invalid_pct", email_pct),
     ("future_dates", (fd : ℚ)),
     ("future_dates_pct", fd_pct),
     ("unrealistic_ages", (ua : ℚ)),
     ("total_unrealistic_pct", ua_pct),
     ("invalid_statuses", (st : ℚ)),
     ("invalid_statuses_pct", st_pct)]
  let outd := outliersDict df
  pure
    { row_count := rows
      column_count := df.length
      columns := columns df
      nulls := nullsSorted df
      formats := formats
      logical_inconsistencies := logicalDict df
      duplicates := duplicatesDict df
      outliers := outd
      summary :=
        { missing_cols := df.countP (fun c => decide (0 < missingCount c.2))
          formats_total := inv_emails + fd + ua
          logical_inconsistencies := logicalDict df
          duplicates := 0
          outliers := (outd.map Prod.snd).foldl (fun a b => a + b) 0
          rule_violations := 0 } }

deriving instance DecidableEq for Except

/-! ## Concrete tables used as evidence -/

/-- A one-row table whose only columns are `email`: no column name contains
`date`. -/
def tblNoDate : Table := [("email", [Val.str "a@b.com"])]

/-- A zero-row table that does contain a date column. -/
def tblZeroRows : Table := [("order_date", [])]

/-- A captured evaluation instant, as `datetime.now(timezone.utc).isoformat()`
renders it. -/
def todayRef : String := "2026-10-12T00:00:00+00:00"

/-- A four-row table with email values `[a, b, a, a]` (as addresses) and an
all-past date column, so the run completes. -/
def tblDups : Table :=
  [("email",
    [Val.str "a@b.com", Val.str "b@b.com", Val.str "a@b.com", Val.str "a@b.com"]),
   ("order_date",
    [Val.str "2020-01-01", Val.str "2020-01-02", Val.str "2020-01-03",
     Val.str "2020-01-04"])]

/-- Claim C2: the claim says a table without any date-named column still
completes profiling with the future-dates check skipped and no escaping
exception; the code instead raises `IndexError` at `header[0]` (line 174),
aborting the whole run with no report. -/
theorem c2_no_date_column_raises :
    buildReport tblNoDate todayRef = Except.error EngErr.indexError := by
  decide

/-- Claim C3: the claim says every format percentage is total, with
`email_invalid_pct = 0.0` when the row count is zero; line 170 has no zero
guard, so a zero-row table raises `ZeroDivisionError` and the run aborts. -/
theorem c3_zero_rows_email_pct_raises :
    buildReport tblZeroRows todayRef = Except.error EngErr.zeroDivisionError := by
  decide

/-- Claim C1: the claim says the summary `duplicates` entry equals the sum of
the integer entries of the duplicate report (2 for email values
`[a, b, a, a]`); the code sums the `dups` dict that is initialized empty on
line 141 and never populated, so the summary entry is 0 while the duplicate
report records 2. -/
theorem c1_summary_duplicates_stale :
    (buildReport tblDups todayRef).map
        (fun r => (r.duplicates.lookup "total_duplicates_records",
                   r.summary.duplicates))
      = Except.ok (some (2 : ℚ), 0) := by
  decide

/-- Claim C9: the engine body is a pure function of the table and the single
captured evaluation instant, so two runs on the same inputs produce the same
report value. -/
theorem c9_engine_deterministic (t1 t2 : Table) (n1 n2 : String)
    (ht : t1 = t2) (hn : n1 = n2) :
    buildReport t1 n1 = buildReport t2 n2 := by
  subst ht; subst hn; rfl

/-- Witness for C9 at a concrete table and instant. -/
theorem c9_engine_deterministic_witness :
    tblDups = tblDups ∧ todayRef = todayRef ∧
      buildReport tblDups todayRef = buildReport tblDups todayRef :=
  ⟨rfl, rfl, c9_engine_deterministic tblDups tblDups todayRef todayRef rfl rfl⟩

/-- Claim C10: when a `total_amount` column exists, the outliers section
carries an `error_total_amount` entry counting the non-missing cells that
fail numeric coercion, and a `negative_total_amount` entry counting the
cells that coerce strictly below zero. -/
theorem c10_total_amount_checks (df : Table) (col : List Val)
    (h : getCol df "total_amount" = some col) :
    (outliersDict df).lookup "error_total_amount"
        = some (((col.filter (fun v => !(isMissing v))).countP
            (fun v => (toNum v).isNone) : ℕ) : ℚ) ∧
    (outliersDict df).lookup "negative_total_amount"
        = some (((col.filter (fun v => !(isMissing v))).countP
            (fun v => match toNum v with
                      | some q => decide (q < 0)
                      | none => false) : ℕ) : ℚ) := by
  constructor <;>
    · simp [outliersDict, List.lookup, error_total_amount, negative_total_amount,
        total_amount_series, h, List.countP_map, Function.comp]
      rfl

/-- A concrete total_amount column: one negative value, one coercion
failure, one missing cell, one benign value. -/
def tblAmount : Table :=
  [("total_amount", [Val.num (-5), Val.str "abc", Val.missing, Val.num 3])]

/-- Witness for C10 on `tblAmount`. -/
theorem c10_total_amount_checks_witness :
    getCol tblAmount "total_amount"
        = some [Val.num (-5), Val.str "abc", Val.missing, Val.num 3] ∧
    ((outliersDict tblAmount).lookup "error_total_amount"
        = some ((([Val.num (-5), Val.str "abc", Val.missing,
            Val.num 3].filter (fun v => !(isMissing v))).countP
              (fun v => (toNum v).isNone) : ℕ) : ℚ) ∧
      (outliersDict tblAmount).lookup "negative_total_amount"
        = some ((([Val.num (-5), Val.str "abc", Val.missing,
            Val.num 3].filter (fun v => !(isMissing v))).countP
              (fun v => match toNum v with
                        | some q => decide (q < 0)
                        | none => false) : ℕ) : ℚ)) :=
  ⟨rfl, c10_total_amount_checks tblAmount _ rfl⟩

/-- A table with one numeric column whose values `[1, 2, 3, 4, 100]` have a
nonzero interquartile range under linear-interpolation quantiles: with the
sorted values at positions `(n - 1) * q`, `Q1` sits at position 1 and equals
2, `Q3` at position 3 and equals 4, so `IQR = 2`, the bounds are `[-1, 7]`,
and exactly one value (100) lies strictly outside them.  An IQR detector as
the claim describes it must therefore emit an entry for column `x`
counting 1 outlier. -/
def tblIqr : Table :=
  [("x", [Val.num 1, Val.num 2, Val.num 3, Val.num 4, Val.num 100])]

/-- Claim C5 counterexample: on `tblIqr` the claim requires the outlier
report to carry an entry for the numeric column `x` (its IQR is nonzero and
100 falls strictly above `Q3 + 1.5 * IQR = 7`, so the entry would count 1);
the outliers section built by lines 254-310 contains no entry for `x` at
all, only its eight fixed keys, and no quartile computation exists in the
engine. -/
theorem c5_no_iqr_entry :
    (outliersDict tblIqr).lookup "x" = none ∧
    (outliersDict tblIqr).map Prod.fst =
      ["total_invalid_methods", "total_invalid_methods_pct",
       "negative_total_amount", "negative_total_amount_pct",
       "error_total_amount", "error_total_amount_pct",
       "total_pricing_error", "total_pricing_error_pct"] := by
  decide

/-- Claim C5 amended: for every table the outliers section consists of
exactly the eight fixed entries (invalid payment methods, negative and
erroneous total amounts, pricing errors, and their percentages); it never
contains per-column IQR results. -/
theorem c5_outliers_fixed_keys (df : Table) :
    (outliersDict df).map Prod.fst =
      ["total_invalid_methods", "total_invalid_methods_pct",
       "negative_total_amount", "negative_total_amount_pct",
       "error_total_amount", "error_total_amount_pct",
       "total_pricing_error", "total_pricing_error_pct"] := rfl

/-- Witness for the amended C5 at a concrete table. -/
theorem c5_outliers_fixed_keys_witness :
    (outliersDict tblIqr).map Prod.fst =
      ["total_invalid_methods", "total_invalid_methods_pct",
       "negative_total_amount", "negative_total_amount_pct",
       "error_total_amount", "error_total_amount_pct",
       "total_pricing_error", "total_pricing_error_pct"] :=
  c5_outliers_fixed_keys tblIqr

/-- Length of a nodup list after filtering away one of its members. -/
theorem filter_ne_length (v : Val) (M : List Val) (hnd : M.Nodup) (hv : v ∈ M) :
    (M.filter (fun x => decide (x ≠ v))).length + 1 = M.length := by
  have hpart :=
    (List.length_eq_length_filter_add (l := M) (fun x => decide (x = v))).symm
  have hc : (M.filter (fun x => decide (x = v))).length = 1 := by
    rw [← List.countP_eq_length_filter]
    exact List.count_eq_one_of_mem hnd hv
  have hne : M.filter (fun x => decide (x ≠ v))
      = M.filter (fun x => !decide (x = v)) := by
    simp only [decide_not]
  rw [hne]
  omega

/-- The accumulator invariant of `dupMarks`: the marked entries plus the
distinct values not yet seen account for the whole list. -/
theorem dupMarks_add_dedup :
    ∀ (l seen : List Val),
      dupMarks seen l + (l.dedup.filter (fun x => decide (x ∉ seen))).length
        = l.length := by
  intro l
  induction l with
  | nil => intro seen; simp [dupMarks]
  | cons v rest ih =>
    intro seen
    have hstep : dupMarks seen (v :: rest)
        = (if v ∈ seen then 1 else 0) + dupMarks (v :: seen) rest := rfl
    by_cases hv : v ∈ rest
    · rw [List.dedup_cons_of_mem hv, hstep, List.length_cons]
      by_cases hs : v ∈ seen
      · have hcong :
            rest.dedup.filter (fun x => decide (x ∉ seen))
              = rest.dedup.filter (fun x => decide (x ∉ v :: seen)) :=
          List.filter_congr (fun x _ => by
            rw [decide_eq_decide]
            simp only [List.mem_cons, not_or]
            constructor
            · intro h; exact ⟨fun he => h (he ▸ hs), h⟩
            · intro h; exact h.2)
        rw [if_pos hs, hcong]
        have := ih (v :: seen)
        omega
      · have hvd : v ∈ rest.dedup := List.mem_dedup.mpr hv
        have hvM : v ∈ rest.dedup.filter (fun x => decide (x ∉ seen)) :=
          List.mem_filter.mpr ⟨hvd, by simpa using hs⟩
        have hfeq :
            (rest.dedup.filter (fun x => decide (x ∉ seen))).filter
                (fun x => decide (x ≠ v))
              = rest.dedup.filter (fun x => decide (x ∉ v :: seen)) := by
          rw [List.filter_filter]
          exact List.filter_congr (fun x _ => by
            by_cases hx1 : x = v
            · subst hx1; simp
            · by_cases hx2 : x ∈ seen <;> simp [hx1, hx2])
        have hlen :=
          filter_ne_length v (rest.dedup.filter (fun x => decide (x ∉ seen)))
            ((List.nodup_dedup rest).filter _) hvM
        rw [hfeq] at hlen
        rw [if_neg hs]
        have := ih (v :: seen)
        omega
    · rw [List.dedup_cons_of_not_mem hv, hstep, List.length_cons, List.filter_cons]
      have hvd : v ∉ rest.dedup := fun h => hv (List.mem_dedup.mp h)
      have hcongv :
          rest.dedup.filter (fun x => decide (x ∉ seen))
            = rest.dedup.filter (fun x => decide (x ∉ v :: seen)) :=
        List.filter_congr (fun x hx => by
          have hx1 : x ≠ v := fun he => hvd (he ▸ hx)
          by_cases hx2 : x ∈ seen <;> simp [hx1, hx2])
      by_cases hs : v ∈ seen
      · rw [if_pos hs,
          if_neg (show ¬(decide (v ∉ seen) = true) by simpa using hs), hcongv]
        have := ih (v :: seen)
        omega
      · rw [if_neg hs,
          if_pos (show decide (v ∉ seen) = true by simpa using hs),
          List.length_cons, hcongv]
        have := ih (v :: seen)
        omega

/-- A table whose two rows are identical in full but with no email column. -/
def tblRows : Table := [("a", [Val.str "x", Val.str "x"])]

/-- The key-column example of the claim: values `[a, b, a, a, missing]`. -/
def tblKey : Table :=
  [("email", [Val.str "a", Val.str "b", Val.str "a", Val.str "a", Val.missing])]

/-- Claim C8 counterexample: the claim requires the duplicate report to also
carry a full-row duplicate count (1 for this table, whose two rows are
identical); the report built by lines 249-252 has only the by-email entries
and, with no email column, records zero duplicates for a table made of two
identical rows. -/
theorem c8_no_full_row_entry :
    (duplicatesDict tblRows).lookup "full_row" = none ∧
    duplicatesDict tblRows
      = [("total_duplicates_records", 0), ("total_duplicates_records_pct", 0)] := by
  decide

/-- Claim C8 amended: the duplicate report contains exactly the by-key
(email) count and its percentage; the by-key count drops missing values and
counts entries duplicating an earlier occurrence, which equals the number of
non-missing entries minus the number of distinct non-missing values; there
is no full-row duplicate count.  On key values `[a, b, a, a, missing]` the
count is 2. -/
theorem c8_by_key_only :
    (∀ df : Table, (duplicatesDict df).map Prod.fst
        = ["total_duplicates_records", "total_duplicates_records_pct"]) ∧
    (∀ (df : Table) (col : List Val), getCol df "email" = some col →
        total_duplicates_records df
            + (col.filter (fun v => !(isMissing v))).dedup.length
          = (col.filter (fun v => !(isMissing v))).length) ∧
    total_duplicates_records tblKey = 2 := by
  refine ⟨fun df => rfl, fun df col h => ?_, by decide⟩
  have hmain := dupMarks_add_dedup (col.filter (fun v => !(isMissing v))) []
  simp only [List.not_mem_nil, not_false_iff, decide_True, List.filter_true] at hmain
  simpa [total_duplicates_records, h] using hmain

/-- Witness for the amended C8 on `tblKey`. -/
theorem c8_by_key_only_witness :
    getCol tblKey "email"
        = some [Val.str "a", Val.str "b", Val.str "a", Val.str "a", Val.missing] ∧
    total_duplicates_records tblKey
        + ([Val.str "a", Val.str "b", Val.str "a", Val.str "a",
            Val.missing].filter (fun v => !(isMissing v))).dedup.length
      = ([Val.str "a", Val.str "b", Val.str "a", Val.str "a",
          Val.missing].filter (fun v => !(isMissing v))).length :=
  ⟨rfl, c8_by_key_only.2.1 tblKey _ rfl⟩

/-- The violation predicate of the claim for one row: both sides coerce and
the selling price is strictly below the cost price. -/
def sellLtCostRow (p : Val × Val) : Bool :=
  match toNum p.1, toNum p.2 with
  | some c, some s => decide (s < c)
  | _, _ => false

/-- The Boolean-mask pipeline of lines 208-215 agrees with the row-level
count of the claim: masked truth count equals the number of rows whose two
cells both coerce with selling strictly below cost. -/
theorem maskCount_eq_countP :
    ∀ cost sell : List Val,
      (List.zipWith (fun l v => l && v)
          (List.zipWith optLt (sell.map toNum) (cost.map toNum))
          (List.zipWith (fun x y => x.isSome && y.isSome)
            (cost.map toNum) (sell.map toNum))).count true
        = (cost.zip sell).countP sellLtCostRow := by
  intro cost
  induction cost with
  | nil => intro sell; simp
  | cons c0 rest ih =>
    intro sell
    cases sell with
    | nil => simp
    | cons s0 stail =>
        simp only [List.map_cons, List.zipWith_cons_cons, List.zip_cons_cons,
          List.count_cons, List.countP_cons, ih stail]
        congr 1
        cases hc : toNum c0 <;> cases hs : toNum s0 <;>
          simp [optLt, sellLtCostRow, hc, hs]

/-- The two-row table of the claim example: `cost_price=[5,10]`,
`selling_price=[4,12]`. -/
def tblPrices : Table :=
  [("cost_price", [Val.num 5, Val.num 10]),
   ("selling_price", [Val.num 4, Val.num 12])]

/-- Claim C6: when both price columns exist, `sell_less_cost` counts exactly
the rows whose two cells both coerce and satisfy selling < cost (coercion
failures excluded), while the percentage always divides by the total row
count; on the example table the count is 1 and the percentage 50. -/
theorem c6_sell_less_cost :
    (∀ (df : Table) (cost sell : List Val),
        getCol df "cost_price" = some cost →
        getCol df "selling_price" = some sell →
        sell_less_cost df = (cost.zip sell).countP sellLtCostRow ∧
        sell_less_cost_pct df
          = roundTo 3 (if nRows df ≠ 0
              then (sell_less_cost df : ℚ) / (nRows df : ℚ) * 100 else 0)) ∧
    sell_less_cost tblPrices = 1 ∧ sell_less_cost_pct tblPrices = 50 := by
  refine ⟨fun df cost sell hc hs => ⟨?_, ?_⟩, by decide, ?_⟩
  · simp only [sell_less_cost, hc, hs]
    exact maskCount_eq_countP cost sell
  · simp only [sell_less_cost_pct, hc, hs, pct3]
  · have h1 : sell_less_cost tblPrices = 1 := by decide
    have h2 : sell_less_cost_pct tblPrices
        = pct3 (sell_less_cost tblPrices) 2 := rfl
    rw [h2, h1]
    norm_num [pct3, roundTo, rteInt]

/-- Witness for C6 on the example table. -/
theorem c6_sell_less_cost_witness :
    getCol tblPrices "cost_price" = some [Val.num 5, Val.num 10] ∧
    getCol tblPrices "selling_price" = some [Val.num 4, Val.num 12] ∧
    (sell_less_cost tblPrices
        = ([Val.num 5, Val.num 10].zip [Val.num 4, Val.num 12]).countP
            sellLtCostRow ∧
      sell_less_cost_pct tblPrices
        = roundTo 3 (if nRows tblPrices ≠ 0
            then (sell_less_cost tblPrices : ℚ) / (nRows tblPrices : ℚ) * 100
            else 0)) :=
  ⟨rfl, rfl, c6_sell_less_cost.1 tblPrices _ _ rfl rfl⟩

/-- The seed is below a `max` fold. -/
theorem init_le_foldl_max (l : List ℕ) : ∀ a : ℕ, a ≤ l.foldl max a := by
  induction l with
  | nil => intro a; exact le_refl a
  | cons b bs ih => intro a; exact le_trans (le_max_left a b) (ih (max a b))

/-- Every member is below a `max` fold. -/
theorem le_foldl_max (l : List ℕ) : ∀ a x : ℕ, x ∈ l → x ≤ l.foldl max a := by
  induction l with
  | nil => intro a x h; cases h
  | cons b bs ih =>
    intro a x h
    rcases List.mem_cons.mp h with rfl | h2
    · exact le_trans (le_max_right a x) (init_le_foldl_max bs (max a x))
    · exact ih (max a b) x h2

/-- A `max` fold returns its seed or one of the members. -/
theorem foldl_max_mem (l : List ℕ) : ∀ a : ℕ, l.foldl max a = a ∨ l.foldl max a ∈ l := by
  induction l with
  | nil => intro a; exact Or.inl rfl
  | cons b bs ih =>
    intro a
    rcases ih (max a b) with h | h
    · rcases max_choice a b with hm | hm
      · left; rw [List.foldl_cons, h, hm]
      · right; rw [List.foldl_cons, h, hm]; exact List.mem_cons_self b bs
    · right; exact List.mem_cons_of_mem b h

/-- A `min` fold is below its seed. -/
theorem foldl_min_le_init (l : List ℚ) : ∀ x : ℚ, l.foldl min x ≤ x := by
  induction l with
  | nil => intro x; exact le_refl x
  | cons b bs ih => intro x; exact le_trans (ih (min x b)) (min_le_left x b)

/-- A `min` fold is below every member. -/
theorem foldl_min_le_mem (l : List ℚ) : ∀ (x w : ℚ), w ∈ l → l.foldl min x ≤ w := by
  induction l with
  | nil => intro x w h; cases h
  | cons b bs ih =>
    intro x w h
    rcases List.mem_cons.mp h with rfl | h2
    · exact le_trans (foldl_min_le_init bs (min x w)) (min_le_right x w)
    · exact ih (min x b) w h2

/-- A `min` fold returns its seed or one of the members. -/
theorem foldl_min_mem (l : List ℚ) : ∀ x : ℚ, l.foldl min x = x ∨ l.foldl min x ∈ l := by
  induction l with
  | nil => intro x; exact Or.inl rfl
  | cons b bs ih =>
    intro x
    rcases ih (min x b) with h | h
    · rcases min_choice x b with hm | hm
      · left; rw [List.foldl_cons, h, hm]
      · right; rw [List.foldl_cons, h, hm]; exact List.mem_cons_self b bs
    · right; exact List.mem_cons_of_mem b h

/-- `listMin` of a list is one of its members. -/
theorem listMin_mem (l : List ℚ) (v : ℚ) (h : listMin l = some v) : v ∈ l := by
  cases l with
  | nil => cases h
  | cons x xs =>
    have hv : xs.foldl min x = v := by simpa [listMin] using h
    rcases foldl_min_mem xs x with h2 | h2
    · rw [hv] at h2; rw [h2]; exact List.mem_cons_self x xs
    · rw [hv] at h2; exact List.mem_cons_of_mem x h2

/-- `listMin` is below every member. -/
theorem listMin_le (l : List ℚ) (v : ℚ) (h : listMin l = some v) :
    ∀ w ∈ l, v ≤ w := by
  cases l with
  | nil => cases h
  | cons x xs =>
    have hv : xs.foldl min x = v := by simpa [listMin] using h
    intro w hw
    rcases List.mem_cons.mp hw with rfl | h2
    · rw [← hv]; exact foldl_min_le_init xs w
    · rw [← hv]; exact foldl_min_le_mem xs x w h2

/-- Claim C4: the canonical value of a group is the mode of its 2-decimal
rounded non-missing prices, the smallest value in case of a frequency tie;
it exists exactly when the group has a non-missing price; a row is an
anomaly exactly when its own rounded price and the canonical value both
exist and differ; on the groups `[10.00, 10.00, 12.00]` and `[10.00, 12.00]`
the canonical value is 10.00 and the first group has one anomaly. -/
theorem c4_canonical_price :
    (∀ (s : List (Option ℚ)) (v : ℚ), canonical_price s = some v →
        v ∈ s.filterMap id ∧
        (∀ w ∈ s.filterMap id,
          (s.filterMap id).count w ≤ (s.filterMap id).count v) ∧
        (∀ w ∈ s.filterMap id,
          (s.filterMap id).count w = (s.filterMap id).count v → v ≤ w)) ∧
    (∀ s : List (Option ℚ), s.filterMap id ≠ [] →
        (canonical_price s).isSome = true) ∧
    (∀ (rows : List PriceRow) (r : PriceRow),
        is_price_outlier rows r = true ↔
          ∃ p c, r.2 = some p ∧
            canonical_price (groupPrices rows r.1) = some c ∧ p ≠ c) ∧
    canonical_price [some 10, some 10, some 12] = some 10 ∧
    canonical_price [some 10, some 12] = some 10 ∧
    pricing_error_rows
      [((Val.str "p1", Val.str "n"), some 10),
       ((Val.str "p1", Val.str "n"), some 10),
       ((Val.str "p1", Val.str "n"), some 12)] = 1 := by
  refine ⟨?_, ?_, ?_, by decide, by decide, by decide⟩
  · intro s v h
    simp only [canonical_price] at h
    by_cases hemp : (s.filterMap id).isEmpty
    · rw [if_pos hemp] at h; cases h
    · rw [if_neg hemp] at h
      have hvmem := listMin_mem _ v h
      have hvf := List.mem_filter.mp hvmem
      have hvd : v ∈ s.filterMap id := List.mem_dedup.mp hvf.1
      have hvc : (s.filterMap id).count v
          = ((s.filterMap id).dedup.map
              (fun p => (s.filterMap id).count p)).foldl max 0 := by
        simpa using hvf.2
      refine ⟨hvd, ?_, ?_⟩
      · intro w hw
        have hwmap : (s.filterMap id).count w
            ∈ (s.filterMap id).dedup.map (fun p => (s.filterMap id).count p) :=
          List.mem_map.mpr ⟨w, List.mem_dedup.mpr hw, rfl⟩
        rw [hvc]
        exact le_foldl_max _ 0 _ hwmap
      · intro w hw heq
        have hwmodes : w ∈ (s.filterMap id).dedup.filter
            (fun p => (s.filterMap id).count p
              == ((s.filterMap id).dedup.map
                    (fun q => (s.filterMap id).count q)).foldl max 0) :=
          List.mem_filter.mpr ⟨List.mem_dedup.mpr hw, by simp [heq, hvc]⟩
        exact listMin_le _ v h w hwmodes
  · intro s hne
    simp only [canonical_price]
    have hemp : (s.filterMap id).isEmpty = false := by
      cases hfm : s.filterMap id with
      | nil => exact absurd hfm hne
      | cons y ys => rfl
    rw [if_neg (by simp [hemp])]
    obtain ⟨x, hx⟩ : ∃ x, x ∈ s.filterMap id := by
      cases hfm : s.filterMap id with
      | nil => exact absurd hfm hne
      | cons y ys => exact ⟨y, hfm ▸ List.mem_cons_self y ys⟩
    have hxc : 0 < (s.filterMap id).count x := List.count_pos_iff.mpr hx
    have hxmap : (s.filterMap id).count x
        ∈ (s.filterMap id).dedup.map (fun p => (s.filterMap id).count p) :=
      List.mem_map.mpr ⟨x, List.mem_dedup.mpr hx, rfl⟩
    rcases foldl_max_mem
        ((s.filterMap id).dedup.map (fun p => (s.filterMap id).count p)) 0
      with h0 | hmem
    · exfalso
      have hle := le_foldl_max _ 0 _ hxmap
      rw [h0] at hle
      omega
    · obtain ⟨p, hpd, hpc⟩ := List.mem_map.mp hmem
      have hpm : p ∈ (s.filterMap id).dedup.filter
          (fun q => (s.filterMap id).count q
            == ((s.filterMap id).dedup.map
                  (fun w => (s.filterMap id).count w)).foldl max 0) :=
        List.mem_filter.mpr ⟨hpd, by simp [hpc]⟩
      cases hmod : (s.filterMap id).dedup.filter
          (fun q => (s.filterMap id).count q
            == ((s.filterMap id).dedup.map
                  (fun w => (s.filterMap id).count w)).foldl max 0) with
      | nil => rw [hmod] at hpm; cases hpm
      | cons m ms => rfl
  · intro rows r
    unfold is_price_outlier
    cases h1 : r.2 with
    | none => simp
    | some p =>
        cases h2 : canonical_price (groupPrices rows r.1) with
        | none => simp
        | some c => simp [bne_iff_ne]

/-- Witness for C4: the mode characterization applied to the concrete group
`[10.00, 10.00, 12.00]`. -/
theorem c4_canonical_price_witness :
    canonical_price [some 10, some 10, some 12] = some (10 : ℚ) ∧
    ((10 : ℚ) ∈ [some (10 : ℚ), some 10, some 12].filterMap id ∧
      (∀ w ∈ [some (10 : ℚ), some 10, some 12].filterMap id,
        ([some (10 : ℚ), some 10, some 12].filterMap id).count w
          ≤ ([some (10 : ℚ), some 10, some 12].filterMap id).count 10) ∧
      (∀ w ∈ [some (10 : ℚ), some 10, some 12].filterMap id,
        ([some (10 : ℚ), some 10, some 12].filterMap id).count w
            = ([some (10 : ℚ), some 10, some 12].filterMap id).count 10 →
          (10 : ℚ) ≤ w)) :=
  ⟨by decide, c4_canonical_price.1 [some 10, some 10, some 12] 10 (by decide)⟩

/-- Head-and-tail characterization of the lexicographic comparison. -/
theorem charListLt_cons_iff (a b : Char) (as bs : List Char) :
    charListLt (a :: as) (b :: bs) = true ↔
      a.toNat < b.toNat ∨ (a.toNat = b.toNat ∧ charListLt as bs = true) := by
  constructor
  · intro h
    by_cases h1 : a.toNat < b.toNat
    · exact Or.inl h1
    · by_cases h2 : b.toNat < a.toNat
      · simp [charListLt, h1, h2] at h
      · right
        refine ⟨by omega, ?_⟩
        simpa [charListLt, h1, h2] using h
  · intro h
    rcases h with h1 | ⟨he, hrec⟩
    · simp [charListLt, h1]
    · have h1 : ¬ a.toNat < b.toNat := by omega
      have h2 : ¬ b.toNat < a.toNat := by omega
      simpa [charListLt, h1, h2] using hrec

/-- The lexicographic comparison is trichotomous. -/
theorem charListLt_trichotomy :
    ∀ as bs : List Char,
      charListLt as bs = true ∨ as = bs ∨ charListLt bs as = true := by
  intro as
  induction as with
  | nil =>
    intro bs
    cases bs with
    | nil => exact Or.inr (Or.inl rfl)
    | cons b bs2 => exact Or.inl rfl
  | cons a as2 ih =>
    intro bs
    cases bs with
    | nil => exact Or.inr (Or.inr rfl)
    | cons b bs2 =>
      rcases Nat.lt_trichotomy a.toNat b.toNat with h | h | h
      · exact Or.inl ((charListLt_cons_iff a b as2 bs2).mpr (Or.inl h))
      · have hab : a = b := Char.ext (UInt32.toNat.inj h)
        subst hab
        rcases ih bs2 with h2 | h2 | h2
        · exact Or.inl ((charListLt_cons_iff a a as2 bs2).mpr (Or.inr ⟨rfl, h2⟩))
        · exact Or.inr (Or.inl (by rw [h2]))
        · exact Or.inr (Or.inr ((charListLt_cons_iff a a bs2 as2).mpr
            (Or.inr ⟨rfl, h2⟩)))
      · exact Or.inr (Or.inr ((charListLt_cons_iff b a bs2 as2).mpr (Or.inl h)))

/-- The lexicographic comparison is transitive. -/
theorem charListLt_trans :
    ∀ as bs cs : List Char,
      charListLt as bs = true → charListLt bs cs = true →
        charListLt as cs = true := by
  intro as
  induction as with
  | nil =>
    intro bs cs h1 h2
    cases bs with
    | nil => simp [charListLt] at h1
    | cons b bs2 =>
      cases cs with
      | nil => simp [charListLt] at h2
      | cons c cs2 => rfl
  | cons a as2 ih =>
    intro bs cs h1 h2
    cases bs with
    | nil => simp [charListLt] at h1
    | cons b bs2 =>
      cases cs with
      | nil => simp [charListLt] at h2
      | cons c cs2 =>
        rw [charListLt_cons_iff] at h1 h2 ⊢
        rcases h1 with h1a | ⟨h1e, h1r⟩
        · rcases h2 with h2a | ⟨h2e, h2r⟩
          · exact Or.inl (by omega)
          · exact Or.inl (by omega)
        · rcases h2 with h2a | ⟨h2e, h2r⟩
          · exact Or.inl (by omega)
          · exact Or.inr ⟨by omega, ih bs2 cs2 h1r h2r⟩

/-- Python string `<=` is total. -/
theorem strLe_total (a b : String) : strLe a b = true ∨ strLe b a = true := by
  rcases charListLt_trichotomy a.data b.data with h | h | h
  · left; simp [strLe, strLt, h]
  · left
    have hab : a = b := String.ext h
    simp [strLe, hab]
  · right; simp [strLe, strLt, h]

/-- Python string `<=` is transitive. -/
theorem strLe_trans {a b c : String}
    (h1 : strLe a b = true) (h2 : strLe b c = true) : strLe a c = true := by
  simp only [strLe, strLt, Bool.or_eq_true, beq_iff_eq] at h1 h2 ⊢
  rcases h1 with rfl | h1
  · exact h2
  · rcases h2 with rfl | h2
    · exact Or.inr h1
    · exact Or.inr (charListLt_trans _ _ _ h1 h2)

instance : IsTotal NullEntry nullOrder := by
  constructor
  intro a b
  rcases Nat.lt_trichotomy a.missing b.missing with h | h | h
  · exact Or.inr (Or.inl h)
  · rcases strLe_total a.column b.column with hs | hs
    · exact Or.inl (Or.inr ⟨h, hs⟩)
    · exact Or.inr (Or.inr ⟨h.symm, hs⟩)
  · exact Or.inl (Or.inl h)

instance : IsTrans NullEntry nullOrder := by
  constructor
  intro a b c hab hbc
  rcases hab with h1 | ⟨h1e, h1l⟩
  · rcases hbc with h2 | ⟨h2e, h2l⟩
    · exact Or.inl (lt_trans h2 h1)
    · exact Or.inl (by omega)
  · rcases hbc with h2 | ⟨h2e, h2l⟩
    · exact Or.inl (by omega)
    · exact Or.inr ⟨by omega, strLe_trans h1l h2l⟩

/-- Unique column names make association lookup agree with membership. -/
theorem getCol_of_mem :
    ∀ df : Table, (columns df).Nodup →
      ∀ n vs, (n, vs) ∈ df → getCol df n = some vs := by
  intro df
  induction df with
  | nil => intro _ n vs h; cases h
  | cons c rest ih =>
    intro hnd n vs hmem
    obtain ⟨cn, cv⟩ := c
    rcases List.mem_cons.mp hmem with he | h2
    · injection he with hn hv
      subst hn; subst hv
      simp [getCol]
    · have hin : n ∈ columns rest := List.mem_map.mpr ⟨(n, vs), h2, rfl⟩
      have hnds := List.nodup_cons.mp (show (cn :: columns rest).Nodup from hnd)
      have hne : ¬ cn = n := fun he => hnds.1 (he ▸ hin)
      simp only [getCol, if_neg hne]
      exact ih hnds.2 n vs h2

/-- Claim C7: for a table with rows and unique column names, the null
profile has one entry per column carrying `round(missing / N * 100, 2)`,
and consecutive entries are strictly ordered: larger missing count first,
ties broken by lexicographically smaller column name. -/
theorem c7_null_profile (df : Table) (hN : 0 < nRows df)
    (hnd : (columns df).Nodup) :
    ((nullsSorted df).map NullEntry.column).Perm (columns df) ∧
    (∀ e ∈ nullsSorted df, ∃ vals, getCol df e.column = some vals ∧
        e.missing = missingCount vals ∧
        e.missing_pct
          = roundTo 2 ((missingCount vals : ℚ) / (nRows df : ℚ) * 100)) ∧
    (nullsSorted df).Pairwise (fun a b =>
        b.missing < a.missing ∨
          (a.missing = b.missing ∧ strLt a.column b.column = true)) := by
  have hperm : (nullsSorted df).Perm (nullEntries df) :=
    List.perm_insertionSort nullOrder (nullEntries df)
  have hmapcols : (nullEntries df).map NullEntry.column = columns df := by
    simp only [nullEntries, columns, List.map_map]
    rfl
  have hpermcols : ((nullsSorted df).map NullEntry.column).Perm (columns df) := by
    rw [← hmapcols]
    exact hperm.map NullEntry.column
  refine ⟨hpermcols, ?_, ?_⟩
  · intro e he
    have he2 : e ∈ nullEntries df := hperm.mem_iff.mp he
    obtain ⟨c, hcdf, rfl⟩ := List.mem_map.mp he2
    refine ⟨c.2, ?_, rfl, ?_⟩
    · exact getCol_of_mem df hnd c.1 c.2 (by simpa using hcdf)
    · simp only []
      rw [if_neg (Nat.pos_iff_ne_zero.mp hN)]
  · have hsorted : List.Pairwise nullOrder (nullsSorted df) :=
      List.sorted_insertionSort nullOrder (nullEntries df)
    have hnods : ((nullsSorted df).map NullEntry.column).Nodup :=
      hpermcols.symm.nodup hnd
    have hpairne : (nullsSorted df).Pairwise
        (fun a b => a.column ≠ b.column) := List.pairwise_map.mp hnods
    refine (hsorted.and hpairne).imp ?_
    intro a b hab
    rcases hab.1 with h | ⟨he, hle⟩
    · exact Or.inl h
    · right
      refine ⟨he, ?_⟩
      have hne := hab.2
      simp only [strLe, Bool.or_eq_true, beq_iff_eq] at hle
      rcases hle with heq | hlt
      · exact absurd heq hne
      · exact hlt

/-- A two-column, two-row table for the null profile witness. -/
def tblNulls : Table :=
  [("b", [Val.missing, Val.num 1]), ("a", [Val.num 2, Val.num 3])]

/-- Witness for C7 on `tblNulls`. -/
theorem c7_null_profile_witness :
    0 < nRows tblNulls ∧ (columns tblNulls).Nodup ∧
    (((nullsSorted tblNulls).map NullEntry.column).Perm (columns tblNulls) ∧
      (∀ e ∈ nullsSorted tblNulls, ∃ vals,
          getCol tblNulls e.column = some vals ∧
          e.missing = missingCount vals ∧
          e.missing_pct
            = roundTo 2 ((missingCount vals : ℚ) / (nRows tblNulls : ℚ) * 100)) ∧
      (nullsSorted tblNulls).Pairwise (fun a b =>
          b.missing < a.missing ∨
            (a.missing = b.missing ∧ strLt a.column b.column = true))) :=
  ⟨by decide, by decide, c7_null_profile tblNulls (by decide) (by decide)⟩
